import Mathlib

/-!
# sml::Vector (src/Vector.h)

A shallow embedding of the fixed-size vector template of `src/Vector.h` and of the
operators defined on it.

Conventions of the embedding:

* `T data[N]` is a function `Fin N → T`; a raw access `data[i]` with a run-time index
  outside `0..N-1` is the fault `Fault.outOfBounds`;
* `assert(N > n)` is a run-time check (the build keeps assertions): when it fails
  the call yields `Fault.assertion` and no value;
* `static_assert` and the other conditions the compiler checks (the number of
  initialisers of a braced list) are proof arguments of the embedded function;
* a member function that mutates `*this` and returns `*this` is a function from the
  receiver to the new receiver;
* a parameter passed by reference is the value of the object it refers to, an object
  other than the receiver; a call in which it refers to the receiver itself is a
  definition of its own (`addAssignSelf`, `subAssignSelf`, `divAssignSelf`,
  `normalizeSelf`);
* `for (size_t i = 0; i < n; ++i)` is `forLoop n`, a monadic left fold over
  `List.range n`.
-/

namespace sml

/-- The two ways a run of the library can stop without a value. -/
inductive Fault where
  /-- An `assert(...)` evaluated to false. -/
  | assertion : Fault
  /-- A raw array was accessed outside its bounds. -/
  | outOfBounds : Fault
  deriving DecidableEq, Repr

/-- Modelled from the spec: `min` is called by `src/Vector.h` on two sizes and is
declared outside it (`Utility.h` is not under `src/`); the specification reads
`min(N, S)` as the smaller of the two sizes. -/
def min (a b : Nat) : Nat := if a ≤ b then a else b

/-- The class template `Vector<T, N>`: its only data member is `T data[N]`. -/
structure Vector (T : Type) (N : Nat) where
  /-- The member `T data[N]`. -/
  data : Fin N → T

/-- Two vectors are equal when their arrays are; decidable for a decidable scalar type. -/
instance {T : Type} {N : Nat} [DecidableEq T] : DecidableEq (Vector T N) := fun a b =>
  decidable_of_iff (a.data = b.data) (by cases a; cases b; simp)

/-- Equality of outcomes (a value or a fault) is decidable. -/
instance {ε α : Type} [DecidableEq ε] [DecidableEq α] : DecidableEq (Except ε α)
  | .ok a, .ok b => decidable_of_iff (a = b) (by simp)
  | .error a, .error b => decidable_of_iff (a = b) (by simp)
  | .ok _, .error _ => isFalse (by simp)
  | .error _, .ok _ => isFalse (by simp)

/-- The loop `for (size_t i = 0; i < n; ++i) body`, the state threaded through. -/
def forLoop {σ : Type} (n : Nat) (body : Nat → σ → Except Fault σ) (init : σ) :
    Except Fault σ :=
  (List.range n).foldlM (fun s i => body i s) init

namespace Vector

variable {T : Type} {N S : Nat}

/-- The raw read `data[n]` (no assertion). -/
def rawGet (self : Vector T N) (n : Nat) : Except Fault T :=
  if h : n < N then .ok (self.data ⟨n, h⟩) else .error .outOfBounds

/-- The raw write `data[n] = v`. -/
def rawSet (self : Vector T N) (n : Nat) (v : T) : Except Fault (Vector T N) :=
  if h : n < N then .ok ⟨Function.update self.data ⟨n, h⟩ v⟩ else .error .outOfBounds

/-- The accessor `constexpr T operator[](size_t n) const { assert(N > n); return data[n]; }`. -/
def index (self : Vector T N) (n : Nat) : Except Fault T :=
  if N > n then self.rawGet n else .error .assertion

/-- The braced initialiser `data{ e0, ..., ek }` of the array `T data[N]`: the
listed values in order, then value-initialised (zero) elements.  A list longer than
`N` does not compile; the constructors below ask for `length ≤ N`. -/
def braceInit [Zero T] (es : List T) : Fin N → T :=
  fun i => es.getD i.val 0

/-- The variadic constructor
`template <typename... V> constexpr Vector(V... vs) : data{ vs... } {}`. -/
def variadic [Zero T] (vs : List T) (_h : vs.length ≤ N) : Vector T N :=
  ⟨braceInit vs⟩

/-- The reads `a[Is]...` of a pack expansion through the pointer `a`, left to right. -/
def readPack (a : Nat → Except Fault T) : List Nat → Except Fault (List T)
  | [] => .ok []
  | i :: is => do
    let x ← a i
    let xs ← readPack a is
    pure (x :: xs)

/-- The array constructor
`template <size_t... Is> constexpr Vector(const T * a, std::index_sequence<Is...>) : data{ a[Is]... } {}`;
the pointer `a` is the partial read function of the array it points into. -/
def ofArray [Zero T] (a : Nat → Except Fault T) (Is : List Nat) (_h : Is.length ≤ N) :
    Except Fault (Vector T N) := do
  let es ← readPack a Is
  pure ⟨braceInit es⟩

/-- The size-changing constructor
`template <size_t S> Vector(const Vector<T, S>& vec) : Vector(vec.data, std::make_index_sequence<min(N, S)>{} ) {}`;
`std::make_index_sequence<k>` is the pack `0, 1, ..., k-1`. -/
def ofVector [Zero T] (vec : Vector T S) : Except Fault (Vector T N) :=
  ofArray vec.rawGet (List.range (min N S))
    (by rw [List.length_range]; unfold min; split <;> omega)

/-- The call `std::copy(first, first + n, data)`: element `i` of the source is
assigned to `data[i]` for `i = 0, ..., n-1`. -/
def copyInto (first : Nat → Except Fault T) (n : Nat) (self : Vector T N) :
    Except Fault (Vector T N) :=
  forLoop n (fun i self => do
    let x ← first i
    self.rawSet i x) self

/-- The vector-value constructor
`Vector(const Vector<T, N - 1> vec, T v) { std::copy(vec.data, vec.data + N - 1, data); data[N - 1] = v; }`.
The member `data` is not initialised before the body runs: `uninit` is its
indeterminate content. -/
def ofVectorValue (uninit : Vector T N) (vec : Vector T (N - 1)) (v : T) :
    Except Fault (Vector T N) := do
  let self ← copyInto vec.rawGet (N - 1) uninit
  self.rawSet (N - 1) v

/-- The accessor `x()`: `static_assert(N > 0, ...); return data[0];`. -/
def x (self : Vector T N) (h : N > 0) : T := self.data ⟨0, h⟩

/-- The accessor `y()`: `static_assert(N > 1, ...); return data[1];`. -/
def y (self : Vector T N) (h : N > 1) : T := self.data ⟨1, h⟩

/-- The accessor `z()`: `static_assert(N > 2, ...); return data[2];`. -/
def z (self : Vector T N) (h : N > 2) : T := self.data ⟨2, h⟩

/-- An assignment `x() = v` through the mutator `T& x()`. -/
def setX (self : Vector T N) (h : N > 0) (v : T) : Vector T N :=
  ⟨Function.update self.data ⟨0, h⟩ v⟩

/-- An assignment `y() = v` through the mutator `T& y()`. -/
def setY (self : Vector T N) (h : N > 1) (v : T) : Vector T N :=
  ⟨Function.update self.data ⟨1, h⟩ v⟩

/-- An assignment `z() = v` through the mutator `T& z()`. -/
def setZ (self : Vector T N) (h : N > 2) (v : T) : Vector T N :=
  ⟨Function.update self.data ⟨2, h⟩ v⟩

/-- The vector-vector `operator+=`:
`for (size_t i = 0; i < min(N, S); ++i) data[i] += rhs[i]; return *this;`. -/
def addAssign [Add T] (self : Vector T N) (rhs : Vector T S) : Except Fault (Vector T N) :=
  forLoop (min N S) (fun i self => do
    let r ← rhs.index i
    let d ← self.rawGet i
    self.rawSet i (d + r)) self

/-- The vector-vector `operator-=`:
`for (size_t i = 0; i < min(N, S); ++i) data[i] -= rhs[i]; return *this;`. -/
def subAssign [Sub T] (self : Vector T N) (rhs : Vector T S) : Except Fault (Vector T N) :=
  forLoop (min N S) (fun i self => do
    let r ← rhs.index i
    let d ← self.rawGet i
    self.rawSet i (d - r)) self

/-- The value constructor `explicit Vector(T v = 0) { for (auto&& i : data) { i = v; } }`:
every element of the array is assigned `v`. -/
def value (v : T) : Vector T N :=
  ⟨fun _ => v⟩

/-- The mutator `T& operator[](size_t n) { assert(N > n); return data[n]; }`: the
reference it returns is the place of `data[n]` in the receiver. -/
def indexRef (_self : Vector T N) (n : Nat) : Except Fault (Fin N) :=
  if h : N > n then .ok ⟨n, h⟩ else .error .assertion

/-- The per-component loop `for (auto&& i : data) i += rhs;`, the body that
`operator+=(T)` keeps in a comment and the generic path of the dispatch. -/
def naiveAdd [Add T] (self : Vector T N) (rhs : T) : Vector T N :=
  ⟨fun i => self.data i + rhs⟩

/-- The scalar `operator/=`:
```
Vector& operator/=(T rhs)
{
  if (s != 0)
  {
    for (auto&& i : res.data)
      i /= s;
  }
  return *this;
}
```
The body names `s` and `res`, which neither the operator nor the class declares:
they are objects of an enclosing scope, here the parameters `s` and `res`.  This
definition is the call in which `res` is an object other than the receiver (always
so when the receiver is a temporary); `divAssignSelf` is the call in which `res`
names the receiver.  The result is the pair of the returned `*this` and of `res`
after the call.  `/` is the division of the scalar type; for `int` the C++ division
truncates toward zero while `/` on `Int` rounds down, and the two agree on the
non-negative operands of every evaluation in this file. -/
def divAssign {M : Nat} [Div T] [Zero T] [DecidableEq T] (self : Vector T N) (rhs : T)
    (s : T) (res : Vector T M) : Vector T N × Vector T M :=
  if s ≠ 0 then
    (self, ⟨fun i => res.data i / s⟩)
  else
    (self, res)

/-- The vector-vector `operator+=` in the call `a += a`: the parameter `rhs` is a
reference to the receiver, so `rhs[i]` reads the receiver as it is in that round. -/
def addAssignSelf [Add T] (self : Vector T N) : Except Fault (Vector T N) :=
  forLoop (min N N) (fun i self => do
    let r ← self.index i
    let d ← self.rawGet i
    self.rawSet i (d + r)) self

/-- The vector-vector `operator-=` in the call `a -= a`: the parameter `rhs` is a
reference to the receiver, so `rhs[i]` reads the receiver as it is in that round. -/
def subAssignSelf [Sub T] (self : Vector T N) : Except Fault (Vector T N) :=
  forLoop (min N N) (fun i self => do
    let r ← self.index i
    let d ← self.rawGet i
    self.rawSet i (d - r)) self

/-- The member `cross`:
```
static_assert(N > 2, ...);
Vector<T, 3> res(y() * rhs.z() - z() * rhs.y(), z() * rhs.x() - x() * rhs.z(), x() * rhs.y() - y() * rhs.x());
x() = res.x();
y() = res.y();
z() = res.z();
return *this;
```
`res` is built by the variadic constructor. -/
def cross [Zero T] [Mul T] [Sub T] (self rhs : Vector T N) (h : N > 2) : Vector T N :=
  let h1 : N > 1 := Nat.lt_of_succ_lt h
  let h0 : N > 0 := Nat.lt_of_succ_lt h1
  let res : Vector T 3 := variadic
    [self.y h1 * rhs.z h - self.z h * rhs.y h1,
     self.z h * rhs.x h0 - self.x h0 * rhs.z h,
     self.x h0 * rhs.y h1 - self.y h1 * rhs.x h0] (Nat.le_refl 3)
  let self := self.setX h0 (res.x (by decide))
  let self := self.setY h1 (res.y (by decide))
  let self := self.setZ h (res.z (by decide))
  self

end Vector

/-- The free `operator+` of two vectors: `return V<T, N1>(lhs) += rhs;` (the copy of
`lhs` is the value `lhs` itself). -/
def add {T : Type} {N1 N2 : Nat} [Add T] (lhs : Vector T N1) (rhs : Vector T N2) :
    Except Fault (Vector T N1) :=
  let tmp : Vector T N1 := lhs
  tmp.addAssign rhs

/-- The dot product, `operator*` of two vectors of one size:
```
T res = 0.0;
for (size_t i = 0; i < N; ++i)
  res += lhs[i] * rhs[i];
return res;
```
-/
def dot {T : Type} {N : Nat} [Zero T] [Add T] [Mul T] (lhs rhs : Vector T N) :
    Except Fault T :=
  forLoop N (fun i res => do
    let l ← lhs.index i
    let r ← rhs.index i
    pure (res + l * r)) 0

/-- The free `cross`: `return Vector<T, N>(lhs).cross(rhs);`. -/
def cross {T : Type} {N : Nat} [Zero T] [Mul T] [Sub T] (lhs rhs : Vector T N) (h : N > 2) :
    Vector T N :=
  let tmp : Vector T N := lhs
  tmp.cross rhs h

/-- The free `operator-` of two vectors: `return Vector<T, N1>(lhs) -= rhs;`. -/
def sub {T : Type} {N1 N2 : Nat} [Sub T] (lhs : Vector T N1) (rhs : Vector T N2) :
    Except Fault (Vector T N1) :=
  let tmp : Vector T N1 := lhs
  tmp.subAssign rhs

/-- Modelled from the spec: a specialization of `VectorOperator<T, N, VT, ET>` for
one pair of tags; `VectorOperator.h` is not under `src/`.  The specification (4.2)
lets a specialization use any algorithm for the in-place scalar add and binds it to
"leave the vector in a state component-wise equal to what the naive per-component
loop would have produced". -/
structure VectorOperator.Specialization (T : Type) (N : Nat) [Add T] where
  /-- The entry point `Add(vec, rhs)` of the specialization. -/
  Add : Vector T N → T → Vector T N
  /-- The contract of 4.2: the same components as the per-component loop. -/
  equivalent : ∀ (vec : Vector T N) (rhs : T) (i : Fin N),
    (Add vec rhs).data i = (vec.naiveAdd rhs).data i

/-- Modelled from the spec: `VectorOperator<T, N, VT, ET>::Add(vec, rhs)`, declared in
`VectorOperator.h`, which is not under `src/`.  The implementation is selected at
compile time from the scalar type, the size and the two tags: the specialization
of the pair of tags when there is one, and "unspecialized combinations fall back to
the generic per-component loop".  The tag types `VecType` and `EvalType` are the
parameters `VT` and `ET`. -/
def VectorOperator.Add {T VT ET : Type} {N : Nat} [Add T]
    (specializations : VT → ET → Option (VectorOperator.Specialization T N))
    (vt : VT) (et : ET) (vec : Vector T N) (rhs : T) : Vector T N :=
  match specializations vt et with
  | some sp => sp.Add vec rhs
  | none => vec.naiveAdd rhs

namespace Vector

variable {T : Type} {N : Nat}

/-- The scalar `operator+=`: `VectorOperator<T, N, VT, ET>::Add(*this, rhs); return *this;`. -/
def addAssignScalar {VT ET : Type} [Add T]
    (specializations : VT → ET → Option (VectorOperator.Specialization T N))
    (vt : VT) (et : ET) (self : Vector T N) (rhs : T) : Vector T N :=
  VectorOperator.Add specializations vt et self rhs

/-- The member `distance`: `return (T)q_sqrt((*this) * (*this));`.  `q_sqrt` is
declared in `Utility.h`, which is not under `src/`: it is the parameter `q_sqrt`,
the conversion to `T` included. -/
def distance [Zero T] [Add T] [Mul T] (q_sqrt : T → T) (self : Vector T N) :
    Except Fault T := do
  let d ← dot self self
  pure (q_sqrt d)

/-- The member `normalize`: `return (*this) /= distance();`, with the objects `s`
and `res` that the body of `operator/=` names. -/
def normalize {M : Nat} [Zero T] [Add T] [Mul T] [Div T] [DecidableEq T] (q_sqrt : T → T)
    (self : Vector T N) (s : T) (res : Vector T M) :
    Except Fault (Vector T N × Vector T M) := do
  let d ← self.distance q_sqrt
  pure (self.divAssign d s res)

end Vector

/-- The free `operator+` of a vector and a scalar: `return Vector<T, N>(lhs) += rhs;`. -/
def addScalar {T VT ET : Type} {N : Nat} [Add T]
    (specializations : VT → ET → Option (VectorOperator.Specialization T N))
    (vt : VT) (et : ET) (lhs : Vector T N) (rhs : T) : Vector T N :=
  let tmp : Vector T N := lhs
  tmp.addAssignScalar specializations vt et rhs

/-- The free `operator+` of a scalar and a vector: `return Vector<T, N>(rhs) += lhs;`. -/
def scalarAdd {T VT ET : Type} {N : Nat} [Add T]
    (specializations : VT → ET → Option (VectorOperator.Specialization T N))
    (vt : VT) (et : ET) (lhs : T) (rhs : Vector T N) : Vector T N :=
  let tmp : Vector T N := rhs
  tmp.addAssignScalar specializations vt et lhs

/-- The free `normalize`: `return Vector<T, N>(vec).normalize();`. -/
def normalize {T : Type} {N M : Nat} [Zero T] [Add T] [Mul T] [Div T] [DecidableEq T]
    (q_sqrt : T → T) (vec : Vector T N) (s : T) (res : Vector T M) :
    Except Fault (Vector T N × Vector T M) :=
  let tmp : Vector T N := vec
  tmp.normalize q_sqrt s res

/-- An example of a specialization for size 4: the four additions written out and the
result rebuilt by the variadic constructor, with no loop. -/
def unrolledAdd4 (T : Type) [Add T] [Zero T] : VectorOperator.Specialization T 4 where
  Add := fun vec rhs =>
    Vector.variadic
      [vec.data 0 + rhs, vec.data 1 + rhs, vec.data 2 + rhs, vec.data 3 + rhs] (Nat.le_refl 4)
  equivalent := by
    intro vec rhs i
    fin_cases i <;> rfl

/-- An example of a dispatch over two boolean tags: the pair `(true, true)` selects
`unrolledAdd4`, every other pair the generic loop. -/
def exampleDispatch (T : Type) [Add T] [Zero T] :
    Bool → Bool → Option (VectorOperator.Specialization T 4) :=
  fun vt et => if vt && et then some (unrolledAdd4 T) else none

/-! ## Lemmas on the loop and on raw accesses -/

section Lemmas

variable {T : Type} {N S : Nat}

theorem min_le_fst (a b : Nat) : min a b ≤ a := by
  unfold min
  split <;> omega

theorem min_le_snd (a b : Nat) : min a b ≤ b := by
  unfold min
  split <;> omega

theorem lt_min_of_lt {i a b : Nat} (ha : i < a) (hb : i < b) : i < min a b := by
  unfold min
  split <;> omega

theorem forLoop_zero {σ : Type} (body : Nat → σ → Except Fault σ) (init : σ) :
    forLoop 0 body init = .ok init := rfl

theorem forLoop_succ {σ : Type} (n : Nat) (body : Nat → σ → Except Fault σ) (init : σ) :
    forLoop (n + 1) body init = forLoop n body init >>= body n := by
  simp [forLoop, List.range_succ, List.foldlM_append]

theorem Vector.rawGet_of_lt (v : Vector T N) {n : Nat} (h : n < N) :
    v.rawGet n = .ok (v.data ⟨n, h⟩) := by
  simp [Vector.rawGet, h]

theorem Vector.rawSet_of_lt (v : Vector T N) {n : Nat} (h : n < N) (x : T) :
    v.rawSet n x = .ok ⟨Function.update v.data ⟨n, h⟩ x⟩ := by
  simp [Vector.rawSet, h]

theorem Vector.index_of_lt (v : Vector T N) {n : Nat} (h : n < N) :
    v.index n = .ok (v.data ⟨n, h⟩) := by
  simp [Vector.index, Vector.rawGet, h]

/-- A loop whose round `i` rewrites only `data[i]`, to `F i data[i]`: after `k`
rounds the components below `k` are rewritten and the others are as before. -/
theorem pointwiseLoop_eq (body : Nat → Vector T N → Except Fault (Vector T N))
    (F : Fin N → T → T) (a : Vector T N) (k : Nat) (hk : k ≤ N)
    (hbody : ∀ (i : Nat) (hi : i < k) (v : Vector T N),
      body i v = .ok ⟨Function.update v.data ⟨i, lt_of_lt_of_le hi hk⟩
        (F ⟨i, lt_of_lt_of_le hi hk⟩ (v.data ⟨i, lt_of_lt_of_le hi hk⟩))⟩) :
    forLoop k body a = .ok ⟨fun i => if i.val < k then F i (a.data i) else a.data i⟩ := by
  induction k with
  | zero => simp [forLoop_zero]
  | succ k ih =>
    have hkN : k < N := lt_of_lt_of_le (Nat.lt_succ_self k) hk
    rw [forLoop_succ, ih (Nat.le_of_succ_le hk)
      (fun i hi v => hbody i (Nat.lt_succ_of_lt hi) v)]
    simp only [bind, Except.bind, hbody k (Nat.lt_succ_self k)]
    congr 2
    funext i
    by_cases hik : i = ⟨k, hkN⟩
    · subst hik
      simp
    · have hne : i.val ≠ k := fun h => hik (Fin.ext h)
      rw [Function.update_noteq hik]
      by_cases hlt : i.val < k
      · have : i.val < k + 1 := Nat.lt_succ_of_lt hlt
        simp [hlt, this]
      · have : ¬ i.val < k + 1 := by omega
        simp [hlt, this]

/-- The state of the receiver after the loop `data[i] = f data[i] rhs[i]` over
`i < min(N,S)`. -/
theorem zipLoop_eq (f : T → T → T) (a : Vector T N) (b : Vector T S) :
    forLoop (min N S) (fun i self => do
        let r ← b.index i
        let d ← self.rawGet i
        self.rawSet i (f d r)) a
      = .ok ⟨fun i => if h : i.val < S then f (a.data i) (b.data ⟨i.val, h⟩) else a.data i⟩ := by
  rw [pointwiseLoop_eq _
    (fun i t => if h : i.val < S then f t (b.data ⟨i.val, h⟩) else t) a (min N S)
    (min_le_fst N S)]
  · congr 2
    funext i
    by_cases h : i.val < S
    · have : i.val < min N S := lt_min_of_lt i.isLt h
      simp [h, this]
    · have : ¬ i.val < min N S := fun h2 => h (lt_of_lt_of_le h2 (min_le_snd N S))
      simp [h, this]
  · intro i hi v
    have hN : i < N := lt_of_lt_of_le hi (min_le_fst N S)
    have hS : i < S := lt_of_lt_of_le hi (min_le_snd N S)
    simp only [bind, Except.bind, Vector.index_of_lt b hS, Vector.rawGet_of_lt _ hN,
      Vector.rawSet_of_lt _ hN]
    simp [hS]

/-- Reading a pack of indices that all read successfully gives the values in order. -/
theorem readPack_eq_map (a : Nat → Except Fault T) (g : Nat → T) (Is : List Nat)
    (h : ∀ i ∈ Is, a i = .ok (g i)) : Vector.readPack a Is = .ok (Is.map g) := by
  induction Is with
  | nil => rfl
  | cons i is ih =>
    have h1 : a i = .ok (g i) := h i (List.mem_cons_self i is)
    have h2 := ih (fun j hj => h j (List.mem_cons_of_mem i hj))
    simp [Vector.readPack, h1, h2, bind, Except.bind, pure, Except.pure]

/-- A braced initialiser listing `g 0, ..., g (k-1)`: component `i` is `g i` below
`k` and zero from `k` on. -/
theorem Vector.braceInit_map_range [Zero T] (g : Nat → T) (k : Nat) (i : Fin N) :
    (Vector.braceInit ((List.range k).map g) : Fin N → T) i
      = if i.val < k then g i.val else 0 := by
  by_cases h : i.val < k
  · simp [Vector.braceInit, List.getD, h]
  · have hnone : (List.range k)[i.val]? = none :=
      List.getElem?_eq_none (by rw [List.length_range]; exact not_lt.mp h)
    simp [Vector.braceInit, List.getD, h, hnone]

/-- The outcome of `std::copy(first, first + n, data)` when the `n` reads succeed. -/
theorem Vector.copyInto_eq (first : Nat → Except Fault T) (g : Nat → T) (n : Nat)
    (hn : n ≤ N) (a : Vector T N) (h : ∀ i, i < n → first i = .ok (g i)) :
    Vector.copyInto first n a
      = .ok ⟨fun i => if i.val < n then g i.val else a.data i⟩ := by
  unfold Vector.copyInto
  rw [pointwiseLoop_eq _ (fun i _ => g i.val) a n hn]
  intro i hi v
  simp only [bind, Except.bind, h i hi, Vector.rawSet_of_lt _ (lt_of_lt_of_le hi hn)]

/-- The accumulator of the dot-product loop after `k` rounds, from any start. -/
theorem dotLoop_eq [Zero T] [Add T] [Mul T] (a b : Vector T N) (init : T) (k : Nat)
    (hk : k ≤ N) :
    forLoop k (fun i res => do
        let l ← a.index i
        let r ← b.index i
        pure (res + l * r)) init
      = .ok (((List.finRange N).take k).foldl (fun acc i => acc + a.data i * b.data i) init) := by
  induction k with
  | zero => simp [forLoop_zero]
  | succ k ih =>
    have hkN : k < N := lt_of_lt_of_le (Nat.lt_succ_self k) hk
    have hget : (List.finRange N)[k]? = some ⟨k, hkN⟩ := by
      rw [List.getElem?_eq_getElem (by simpa using hkN)]
      simp
    rw [forLoop_succ, ih (Nat.le_of_succ_le hk), List.take_succ, hget]
    simp only [bind, Except.bind, Vector.index_of_lt a hkN, Vector.index_of_lt b hkN, pure,
      Except.pure, Option.toList, List.foldl_append, List.foldl_cons, List.foldl_nil]

/-- The dot product returns the left fold of `acc + a[i] * b[i]` over the indices. -/
theorem dot_eq_foldl [Zero T] [Add T] [Mul T] (a b : Vector T N) :
    dot a b = .ok ((List.finRange N).foldl (fun acc i => acc + a.data i * b.data i) 0) := by
  have h := dotLoop_eq a b 0 N (le_refl N)
  rw [List.take_of_length_le (by simp)] at h
  exact h

/-- The components of index 0, 1, 2 of `a.cross(b)`, and those from index 3 on. -/
theorem Vector.cross_data [Zero T] [Mul T] [Sub T] (h : 2 < N) (a b : Vector T N) :
    (a.cross b h).data ⟨0, by omega⟩
        = a.data ⟨1, by omega⟩ * b.data ⟨2, h⟩ - a.data ⟨2, h⟩ * b.data ⟨1, by omega⟩ ∧
      (a.cross b h).data ⟨1, by omega⟩
        = a.data ⟨2, h⟩ * b.data ⟨0, by omega⟩ - a.data ⟨0, by omega⟩ * b.data ⟨2, h⟩ ∧
      (a.cross b h).data ⟨2, h⟩
        = a.data ⟨0, by omega⟩ * b.data ⟨1, by omega⟩
          - a.data ⟨1, by omega⟩ * b.data ⟨0, by omega⟩ ∧
      (∀ (i : Nat) (hi : i < N), 3 ≤ i → (a.cross b h).data ⟨i, hi⟩ = a.data ⟨i, hi⟩) := by
  refine ⟨?_, ?_, ?_, ?_⟩
  · simp [Vector.cross, Vector.setX, Vector.setY, Vector.setZ, Vector.x, Vector.y, Vector.z,
      Vector.variadic, Vector.braceInit, Function.update, Fin.ext_iff]
  · simp [Vector.cross, Vector.setX, Vector.setY, Vector.setZ, Vector.x, Vector.y, Vector.z,
      Vector.variadic, Vector.braceInit, Function.update, Fin.ext_iff]
  · simp [Vector.cross, Vector.setX, Vector.setY, Vector.setZ, Vector.x, Vector.y, Vector.z,
      Vector.variadic, Vector.braceInit, Function.update, Fin.ext_iff]
  · intro i hi h3
    have h0 : i ≠ 0 := by omega
    have h1 : i ≠ 1 := by omega
    have h2 : i ≠ 2 := by omega
    simp [Vector.cross, Vector.setX, Vector.setY, Vector.setZ, Function.update, Fin.ext_iff,
      h0, h1, h2]

/-- The receiver is what `operator/=` returns, whatever the divisor. -/
theorem Vector.divAssign_fst {M : Nat} [Div T] [Zero T] [DecidableEq T] (v : Vector T N)
    (rhs s : T) (res : Vector T M) : (v.divAssign rhs s res).1 = v := by
  unfold Vector.divAssign
  split <;> rfl

/-- The outcome of the vector-vector `operator+=`. -/
theorem Vector.addAssign_eq [Add T] (a : Vector T N) (b : Vector T S) :
    a.addAssign b
      = .ok ⟨fun i => if h : i.val < S then a.data i + b.data ⟨i.val, h⟩ else a.data i⟩ :=
  zipLoop_eq (fun d r => d + r) a b

/-- The outcome of the vector-vector `operator-=`. -/
theorem Vector.subAssign_eq [Sub T] (a : Vector T N) (b : Vector T S) :
    a.subAssign b
      = .ok ⟨fun i => if h : i.val < S then a.data i - b.data ⟨i.val, h⟩ else a.data i⟩ :=
  zipLoop_eq (fun d r => d - r) a b

/-- The outcome of the size-changing constructor. -/
theorem Vector.ofVector_eq [Zero T] (w : Vector T S) :
    (Vector.ofVector w : Except Fault (Vector T N))
      = .ok ⟨fun i => if h : i.val < S then w.data ⟨i.val, h⟩ else 0⟩ := by
  have hread : Vector.readPack w.rawGet (List.range (min N S))
      = .ok ((List.range (min N S)).map
          (fun i => if h : i < S then w.data ⟨i, h⟩ else 0)) := by
    apply readPack_eq_map
    intro i hi
    have hS : i < S := lt_of_lt_of_le (List.mem_range.mp hi) (min_le_snd N S)
    simp [Vector.rawGet, hS]
  simp only [Vector.ofVector, Vector.ofArray, hread, bind, Except.bind, pure, Except.pure]
  congr 2
  funext i
  rw [Vector.braceInit_map_range]
  by_cases h : i.val < S
  · have : i.val < min N S := lt_min_of_lt i.isLt h
    simp [h, this]
  · have : ¬ i.val < min N S := fun h2 => h (lt_of_lt_of_le h2 (min_le_snd N S))
    simp [h, this]

/-- The outcome of the vector-value constructor, for a size of at least one. -/
theorem Vector.ofVectorValue_eq (hN : 1 ≤ N) (uninit : Vector T N) (w : Vector T (N - 1))
    (v : T) :
    Vector.ofVectorValue uninit w v
      = .ok ⟨fun i => if h : i.val < N - 1 then w.data ⟨i.val, h⟩ else v⟩ := by
  have hlast : N - 1 < N := Nat.sub_lt hN (by decide)
  have hcopy := Vector.copyInto_eq w.rawGet
    (fun i => if h : i < N - 1 then w.data ⟨i, h⟩ else v) (N - 1) (Nat.sub_le N 1) uninit
    (by
      intro i hi
      simp [Vector.rawGet, hi])
  unfold Vector.ofVectorValue
  rw [hcopy]
  simp only [bind, Except.bind, Vector.rawSet_of_lt _ hlast]
  congr 2
  funext i
  by_cases hi : i = ⟨N - 1, hlast⟩
  · subst hi
    simp
  · have hlt : i.val < N - 1 := by
      have hne : i.val ≠ N - 1 := fun h => hi (Fin.ext h)
      have := i.isLt
      omega
    rw [Function.update_noteq hi]
    simp [hlt]

/-- Over a semiring the dot product returns the finite sum of the products. -/
theorem dot_eq_sum {R : Type} [Semiring R] (a b : Vector R N) :
    dot a b = .ok (∑ i : Fin N, a.data i * b.data i) := by
  rw [dot_eq_foldl, Fin.sum_univ_def, List.sum_eq_foldl, List.foldl_map]

/-- A sum over `Fin N` whose terms vanish from index 3 on is the sum of its first
three terms. -/
theorem sum_three_of_zero_tail {R : Type} [AddCommMonoid R] (h : 2 < N) (g : Fin N → R)
    (hg : ∀ i : Fin N, 3 ≤ i.val → g i = 0) :
    ∑ i : Fin N, g i = g ⟨0, by omega⟩ + g ⟨1, by omega⟩ + g ⟨2, h⟩ := by
  obtain ⟨M, rfl⟩ : ∃ M, N = M + 3 := ⟨N - 3, by omega⟩
  rw [Fin.sum_univ_succ, Fin.sum_univ_succ, Fin.sum_univ_succ]
  rw [Finset.sum_eq_zero (fun i _ => hg _ (by simp))]
  simp only [add_zero, ← add_assoc]
  rfl

/-- The dot product of `cross(a,b)` with a vector `x` to which the three computed
components are orthogonal: what is left is the sum of `a[i] * x[i]` over the
components of index 3 or more, which `cross` leaves as those of `a`. -/
theorem dot_cross_eq {R : Type} [CommRing R] (h : 2 < N) (a b x : Vector R N)
    (hx : (a.cross b h).data ⟨0, by omega⟩ * x.data ⟨0, by omega⟩
        + (a.cross b h).data ⟨1, by omega⟩ * x.data ⟨1, by omega⟩
        + (a.cross b h).data ⟨2, h⟩ * x.data ⟨2, h⟩ = 0) :
    dot (cross a b h) x
      = .ok (∑ i : Fin N, if 3 ≤ i.val then a.data i * x.data i else 0) := by
  have hfree : cross a b h = a.cross b h := rfl
  rw [dot_eq_sum, hfree]
  congr 1
  have hsplit : ∀ i : Fin N, (a.cross b h).data i * x.data i
      = (if 3 ≤ i.val then 0 else (a.cross b h).data i * x.data i)
        + (if 3 ≤ i.val then a.data i * x.data i else 0) := by
    intro i
    by_cases hi : 3 ≤ i.val
    · have := (Vector.cross_data h a b).2.2.2 i.val i.isLt hi
      simp only [Fin.eta] at this
      simp [hi, this]
    · simp [hi]
  rw [Finset.sum_congr rfl (fun i _ => hsplit i), Finset.sum_add_distrib,
    sum_three_of_zero_tail h _ (fun i hi => by simp [hi])]
  simp only [show ¬ (3 ≤ 0) by decide, show ¬ (3 ≤ 1) by decide, show ¬ (3 ≤ 2) by decide,
    if_false]
  rw [hx, zero_add]

/-- The scalar `operator+=` leaves the components of the per-component loop, whatever
the dispatch selects. -/
theorem Vector.addAssignScalar_data {VT ET : Type} [Add T]
    (specializations : VT → ET → Option (VectorOperator.Specialization T N))
    (vt : VT) (et : ET) (v : Vector T N) (s : T) (i : Fin N) :
    (v.addAssignScalar specializations vt et s).data i = (v.naiveAdd s).data i := by
  unfold Vector.addAssignScalar VectorOperator.Add
  cases hsel : specializations vt et with
  | none => rfl
  | some sp => exact sp.equivalent v s i

/-- The member `distance` returns `q_sqrt` of the accumulated sum: no assertion fails. -/
theorem Vector.distance_eq [Zero T] [Add T] [Mul T] (q_sqrt : T → T) (v : Vector T N) :
    v.distance q_sqrt
      = .ok (q_sqrt ((List.finRange N).foldl (fun acc i => acc + v.data i * v.data i) 0)) := by
  unfold Vector.distance
  rw [dot_eq_foldl]
  rfl

/-- The member `normalize` returns a value, whose first component is the receiver as
it was. -/
theorem Vector.normalize_fst {M : Nat} [Zero T] [Add T] [Mul T] [Div T] [DecidableEq T]
    (q_sqrt : T → T) (v : Vector T N) (s : T) (res : Vector T M) :
    ∃ out, v.normalize q_sqrt s res = .ok out ∧ out.1 = v := by
  unfold Vector.normalize
  rw [Vector.distance_eq]
  exact ⟨_, rfl, Vector.divAssign_fst v _ s res⟩

end Lemmas

/-! ## Vector addition -/

/-- C1: for all sizes `N`, `S`, every `N`-vector `a` and `S`-vector `b`, the in-place
`operator+=` and the free `operator+` both return a vector `r` of size `N` with
`r[i] = a[i] + b[i]` for every `i < min(N,S)` (that is `i < N` and `i < S`) and
`r[i] = a[i]` for every `i` with `min(N,S) ≤ i < N`; and `(1,2,3) + (10,20)` is
`(11,22,3)`. -/
theorem C1_add_components :
    (∀ (T : Type) [Add T] (N S : Nat) (a : Vector T N) (b : Vector T S),
      ∃ r : Vector T N, a.addAssign b = .ok r ∧ add a b = .ok r ∧
        (∀ (i : Nat) (hN : i < N) (hS : i < S),
          r.data ⟨i, hN⟩ = a.data ⟨i, hN⟩ + b.data ⟨i, hS⟩) ∧
        (∀ (i : Nat) (hN : i < N), min N S ≤ i → r.data ⟨i, hN⟩ = a.data ⟨i, hN⟩)) ∧
    add (Vector.variadic [1, 2, 3] (by decide) : Vector Int 3)
        (Vector.variadic [10, 20] (by decide) : Vector Int 2)
      = .ok (Vector.variadic [11, 22, 3] (by decide)) := by
  refine ⟨?_, by decide⟩
  intro T _ N S a b
  have h := zipLoop_eq (fun d r => d + r) a b
  refine ⟨_, h, h, ?_, ?_⟩
  · intro i hN hS
    simp [hS]
  · intro i hN hle
    have : ¬ i < S := fun hS => absurd (lt_min_of_lt hN hS) (not_lt.mpr hle)
    simp [this]

/-! ## Division by a scalar -/

/-- C3 (the code at the failing input): `operator/=(2)` applied to the integer
vector `(6,8)` returns `(6,8)`, not `(6/2, 8/2) = (3,4)`, whatever the objects `s`
and `res` are: the body divides `res.data` by `s` and never touches the receiver. -/
theorem C3_divAssign_receiver_not_divided (M : Nat) (s : Int) (res : Vector Int M) :
    ((Vector.variadic [6, 8] (by decide) : Vector Int 2).divAssign 2 s res).1
        = Vector.variadic [6, 8] (by decide) ∧
      ((Vector.variadic [6, 8] (by decide) : Vector Int 2).divAssign 2 s res).1
        ≠ Vector.variadic [6 / 2, 8 / 2] (by decide) := by
  rw [Vector.divAssign_fst]
  exact ⟨rfl, by decide⟩

/-! ## Constructors -/

/-- C4: for all sizes `N`, `S` and every `S`-vector `w`, the size-changing constructor
returns an `N`-vector `r` with `r[i] = w[i]` for every `i < min(N,S)` (that is
`i < N` and `i < S`) and `r[i] = 0` for every `i` with `S ≤ i < N`. -/
theorem C4_ofVector_components (T : Type) [Zero T] (N S : Nat) (w : Vector T S) :
    ∃ r : Vector T N, Vector.ofVector w = .ok r ∧
      (∀ (i : Nat) (hN : i < N) (hS : i < S), r.data ⟨i, hN⟩ = w.data ⟨i, hS⟩) ∧
      (∀ (i : Nat) (hN : i < N), S ≤ i → r.data ⟨i, hN⟩ = 0) := by
  have hread : Vector.readPack w.rawGet (List.range (min N S))
      = .ok ((List.range (min N S)).map
          (fun i => if h : i < S then w.data ⟨i, h⟩ else 0)) := by
    apply readPack_eq_map
    intro i hi
    have hS : i < S := lt_of_lt_of_le (List.mem_range.mp hi) (min_le_snd N S)
    simp [Vector.rawGet, hS]
  have hres : (Vector.ofVector w : Except Fault (Vector T N))
      = .ok ⟨Vector.braceInit ((List.range (min N S)).map
          (fun i => if h : i < S then w.data ⟨i, h⟩ else 0))⟩ := by
    simp only [Vector.ofVector, Vector.ofArray, hread, bind, Except.bind, pure, Except.pure]
  refine ⟨_, hres, ?_, ?_⟩
  · intro i hN hS
    have : i < min N S := lt_min_of_lt hN hS
    simp only [Vector.braceInit_map_range]
    simp [this, hS]
  · intro i hN hle
    have : ¬ i < S := not_lt.mpr hle
    simp only [Vector.braceInit_map_range]
    simp [this]

/-- C5: for every `N ≥ 2`, every `(N-1)`-vector `w` and every scalar `v`, the
vector-value constructor returns, whatever the storage held before, an `N`-vector
`r` with `r[i] = w[i]` for every `i < N-1` and `r[N-1] = v`. -/
theorem C5_ofVectorValue_components (T : Type) (N : Nat) (hN : 2 ≤ N)
    (uninit : Vector T N) (w : Vector T (N - 1)) (v : T) :
    ∃ r : Vector T N, Vector.ofVectorValue uninit w v = .ok r ∧
      (∀ (i : Nat) (hi : i < N - 1),
        r.data ⟨i, lt_of_lt_of_le hi (Nat.sub_le N 1)⟩ = w.data ⟨i, hi⟩) ∧
      r.data ⟨N - 1, Nat.sub_lt (lt_of_lt_of_le (by decide) hN) (by decide)⟩ = v := by
  have hlast : N - 1 < N := Nat.sub_lt (lt_of_lt_of_le (by decide) hN) (by decide)
  have hcopy := Vector.copyInto_eq w.rawGet
    (fun i => if h : i < N - 1 then w.data ⟨i, h⟩ else v) (N - 1) (Nat.sub_le N 1) uninit
    (by
      intro i hi
      simp [Vector.rawGet, hi])
  have hres : Vector.ofVectorValue uninit w v
      = .ok ⟨Function.update
          (fun i : Fin N => if i.val < N - 1
            then (if h : i.val < N - 1 then w.data ⟨i.val, h⟩ else v)
            else uninit.data i) ⟨N - 1, hlast⟩ v⟩ := by
    unfold Vector.ofVectorValue
    rw [hcopy]
    simp only [bind, Except.bind, Vector.rawSet_of_lt _ hlast]
  refine ⟨_, hres, ?_, ?_⟩
  · intro i hi
    have hne : (⟨i, lt_of_lt_of_le hi (Nat.sub_le N 1)⟩ : Fin N) ≠ ⟨N - 1, hlast⟩ := by
      intro h
      exact absurd (Fin.mk.inj h) (Nat.ne_of_lt hi)
    simp [Function.update_noteq hne, hi]
  · simp

/-- C5, at `N = 3`: `Vector<int,3>((6,8), 5)` over storage holding `(7,7,7)`. -/
theorem C5_ofVectorValue_components_witness :
    ∃ r : Vector Int 3,
      Vector.ofVectorValue (Vector.variadic [7, 7, 7] (by decide))
        (Vector.variadic [6, 8] (by decide) : Vector Int (3 - 1)) 5 = .ok r ∧
      (∀ (i : Nat) (hi : i < 3 - 1),
        r.data ⟨i, lt_of_lt_of_le hi (Nat.sub_le 3 1)⟩
          = (Vector.variadic [6, 8] (by decide) : Vector Int (3 - 1)).data ⟨i, hi⟩) ∧
      r.data ⟨3 - 1, Nat.sub_lt (lt_of_lt_of_le (by decide) (by decide : 2 ≤ 3)) (by decide)⟩
        = 5 :=
  C5_ofVectorValue_components Int 3 (by decide) _ _ 5

/-- C6: for every size `N` and every list `vs` of exactly `N` scalars, the vector
built by the variadic constructor satisfies `operator[](i) == vs[i]` for every
`i < N`. -/
theorem C6_variadic_index (T : Type) [Zero T] (N : Nat) (vs : List T)
    (hlen : vs.length = N) (i : Nat) (hi : i < N) :
    (Vector.variadic vs (le_of_eq hlen) : Vector T N).index i
      = .ok (vs.get ⟨i, lt_of_lt_of_eq hi hlen.symm⟩) := by
  have hi2 : i < vs.length := lt_of_lt_of_eq hi hlen.symm
  rw [Vector.index_of_lt _ hi]
  simp [Vector.variadic, Vector.braceInit, List.getD, hi2]

/-- C6, at the list `4, 5, 6` and the index `2`. -/
theorem C6_variadic_index_witness :
    (Vector.variadic [4, 5, 6] (le_of_eq rfl) : Vector Int 3).index 2
      = .ok (([4, 5, 6] : List Int).get ⟨2, lt_of_lt_of_eq (by decide) (Eq.symm rfl)⟩) :=
  C6_variadic_index Int 3 [4, 5, 6] rfl 2 (by decide)

/-! ## Dot product -/

/-- C7: for every size `N` and all `N`-vectors `a`, `b`, the vector-vector `operator*`
returns the sum of `a[i] * b[i]` over `i = 0, ..., N-1`, accumulated from `0` in
index order (a left fold for any scalar type, the finite sum `∑ i, a[i] * b[i]` over
a semiring); and `(1,2,3) * (4,5,6) == 32`. -/
theorem C7_dot_is_sum_of_products :
    (∀ (T : Type) [Zero T] [Add T] [Mul T] (N : Nat) (a b : Vector T N),
      dot a b
        = .ok ((List.finRange N).foldl (fun acc i => acc + a.data i * b.data i) 0)) ∧
    (∀ (R : Type) [Semiring R] (N : Nat) (a b : Vector R N),
      dot a b = .ok (∑ i : Fin N, a.data i * b.data i)) ∧
    dot (Vector.variadic [1, 2, 3] (by decide) : Vector Int 3)
        (Vector.variadic [4, 5, 6] (by decide)) = .ok 32 := by
  refine ⟨fun T _ _ _ N a b => dot_eq_foldl a b, ?_, by decide⟩
  intro R _ N a b
  rw [dot_eq_foldl, Fin.sum_univ_def, List.sum_eq_foldl, List.foldl_map]

/-- C8: for every size `N` and all `N`-vectors `a`, `b` over a scalar type whose
multiplication is commutative, in particular over the integers and over the
rationals, the dot product is commutative: `a * b == b * a`. -/
theorem C8_dot_comm :
    (∀ (T : Type) [Zero T] [Add T] [CommMagma T] (N : Nat) (a b : Vector T N),
      dot a b = dot b a) ∧
    (∀ (N : Nat) (a b : Vector Int N), dot a b = dot b a) ∧
    (∀ (N : Nat) (a b : Vector Rat N), dot a b = dot b a) := by
  have key : ∀ (T : Type) [Zero T] [Add T] [CommMagma T] (N : Nat) (a b : Vector T N),
      dot a b = dot b a := by
    intro T _ _ _ N a b
    rw [dot_eq_foldl, dot_eq_foldl]
    congr 2
    funext acc i
    rw [mul_comm]
  exact ⟨key, fun N a b => key Int N a b, fun N a b => key Rat N a b⟩

/-! ## Cross product -/

/-- C9: for every `N ≥ 3` and all `N`-vectors `a`, `b`, the member `a.cross(b)` and the
free `cross(a,b)` return the same vector `c`, with
`c[0] = a[1]*b[2] - a[2]*b[1]`, `c[1] = a[2]*b[0] - a[0]*b[2]`,
`c[2] = a[0]*b[1] - a[1]*b[0]` (the components of `a` and `b` before the call) and
`c[i] = a[i]` for every `i` with `3 ≤ i < N`; and
`cross((1,0,0),(0,1,0)) == (0,0,1)`. -/
theorem C9_cross_components :
    (∀ (T : Type) [Zero T] [Mul T] [Sub T] (N : Nat) (h : 2 < N) (a b : Vector T N),
      cross a b h = a.cross b h ∧
      (a.cross b h).data ⟨0, by omega⟩
        = a.data ⟨1, by omega⟩ * b.data ⟨2, h⟩ - a.data ⟨2, h⟩ * b.data ⟨1, by omega⟩ ∧
      (a.cross b h).data ⟨1, by omega⟩
        = a.data ⟨2, h⟩ * b.data ⟨0, by omega⟩ - a.data ⟨0, by omega⟩ * b.data ⟨2, h⟩ ∧
      (a.cross b h).data ⟨2, h⟩
        = a.data ⟨0, by omega⟩ * b.data ⟨1, by omega⟩
          - a.data ⟨1, by omega⟩ * b.data ⟨0, by omega⟩ ∧
      (∀ (i : Nat) (hi : i < N), 3 ≤ i → (a.cross b h).data ⟨i, hi⟩ = a.data ⟨i, hi⟩)) ∧
    cross (Vector.variadic [1, 0, 0] (by decide) : Vector Int 3)
        (Vector.variadic [0, 1, 0] (by decide)) (by decide)
      = Vector.variadic [0, 0, 1] (by decide) := by
  refine ⟨?_, by decide⟩
  intro T _ _ _ N h a b
  exact ⟨rfl, Vector.cross_data h a b⟩

/-- C9, at `N = 4`: the cross product of `(1,0,0,7)` and `(0,1,0,9)` keeps the
component of index 3 of the receiver. -/
theorem C9_cross_components_witness :
    ((Vector.variadic [1, 0, 0, 7] (by decide) : Vector Int 4).cross
        (Vector.variadic [0, 1, 0, 9] (by decide)) (by decide)).data ⟨3, by decide⟩
      = (Vector.variadic [1, 0, 0, 7] (by decide) : Vector Int 4).data ⟨3, by decide⟩ :=
  (C9_cross_components.1 Int 4 (by decide) _ _).2.2.2.2 3 (by decide) (by decide)

/-- C10 as stated fails at `N = 4`: for `a = (1,0,0,1)` and `b = (0,1,0,1)`,
`cross(a,b) = (0,0,1,1)` and `-cross(b,a) = (0,0,1,-1)` differ at index 3. -/
theorem C10_cross_anticomm_counterexample :
    ¬ ∀ (i : Nat) (hi : i < 4),
      (cross (Vector.variadic [1, 0, 0, 1] (by decide) : Vector Int 4)
          (Vector.variadic [0, 1, 0, 1] (by decide)) (by decide)).data ⟨i, hi⟩
        = -(cross (Vector.variadic [0, 1, 0, 1] (by decide) : Vector Int 4)
          (Vector.variadic [1, 0, 0, 1] (by decide)) (by decide)).data ⟨i, hi⟩ := by
  intro h
  exact absurd (h 3 (by decide)) (by decide)

/-- C10, amended: for every `N ≥ 3` and all `N`-vectors `a`, `b` over a commutative
ring (the integers, the rationals), `cross(a,b)[i] == -cross(b,a)[i]` for every
`i < 3`. -/
theorem C10_cross_anticomm_first_three (T : Type) [CommRing T] (N : Nat) (h : 2 < N)
    (a b : Vector T N) (i : Nat) (hi : i < 3) :
    (cross a b h).data ⟨i, lt_of_lt_of_le hi h⟩
      = -(cross b a h).data ⟨i, lt_of_lt_of_le hi h⟩ := by
  have hab := Vector.cross_data h a b
  have hba := Vector.cross_data h b a
  have hfree : ∀ u v : Vector T N, cross u v h = u.cross v h := fun _ _ => rfl
  rw [hfree, hfree]
  have hcases : i = 0 ∨ i = 1 ∨ i = 2 := by omega
  rcases hcases with rfl | rfl | rfl
  · rw [hab.1, hba.1]
    ring
  · rw [hab.2.1, hba.2.1]
    ring
  · rw [hab.2.2.1, hba.2.2.1]
    ring

/-- C10 amended, at `N = 4`, `a = (1,0,0,1)`, `b = (0,1,0,1)` and the index 2. -/
theorem C10_cross_anticomm_first_three_witness :
    (cross (Vector.variadic [1, 0, 0, 1] (by decide) : Vector Int 4)
        (Vector.variadic [0, 1, 0, 1] (by decide)) (by decide)).data
          ⟨2, lt_of_lt_of_le (by decide : 2 < 3) (by decide : 2 < 4)⟩
      = -(cross (Vector.variadic [0, 1, 0, 1] (by decide) : Vector Int 4)
        (Vector.variadic [1, 0, 0, 1] (by decide)) (by decide)).data
          ⟨2, lt_of_lt_of_le (by decide : 2 < 3) (by decide : 2 < 4)⟩ :=
  C10_cross_anticomm_first_three Int 4 (by decide) _ _ 2 (by decide)

/-! ## Vector subtraction -/

/-- C14: for all sizes `N`, `S`, every `N`-vector `a` and `S`-vector `b`, the in-place
`operator-=` and the free `operator-` both return a vector `r` of size `N` with
`r[i] = a[i] - b[i]` for every `i < min(N,S)` (that is `i < N` and `i < S`) and
`r[i] = a[i]` for every `i` with `min(N,S) ≤ i < N`. -/
theorem C14_sub_components (T : Type) [Sub T] (N S : Nat) (a : Vector T N)
    (b : Vector T S) :
    ∃ r : Vector T N, a.subAssign b = .ok r ∧ sub a b = .ok r ∧
      (∀ (i : Nat) (hN : i < N) (hS : i < S),
        r.data ⟨i, hN⟩ = a.data ⟨i, hN⟩ - b.data ⟨i, hS⟩) ∧
      (∀ (i : Nat) (hN : i < N), min N S ≤ i → r.data ⟨i, hN⟩ = a.data ⟨i, hN⟩) := by
  have h := Vector.subAssign_eq a b
  refine ⟨_, h, h, ?_, ?_⟩
  · intro i hN hS
    simp [hS]
  · intro i hN hle
    have : ¬ i < S := fun hS => absurd (lt_min_of_lt hN hS) (not_lt.mpr hle)
    simp [this]

/-! ## Indexed access -/

/-- C15: for every size `N`, every `N`-vector `v` and every index `n`, the const
`operator[](n)` returns the stored `data[n]` when `n < N` and fails the assertion,
with no value, when `n ≥ N`; the mutable `operator[](n)` returns the place of
`data[n]` when `n < N` and fails the assertion when `n ≥ N`. -/
theorem C15_index_checked (T : Type) (N : Nat) (v : Vector T N) (n : Nat) :
    v.index n = (if h : n < N then .ok (v.data ⟨n, h⟩) else .error .assertion) ∧
    v.indexRef n = (if h : n < N then .ok ⟨n, h⟩ else .error .assertion) ∧
    (N ≤ n → ∀ x : T, v.index n ≠ .ok x) := by
  refine ⟨?_, ?_, ?_⟩
  · by_cases h : n < N
    · simp [Vector.index, Vector.rawGet, h]
    · simp [Vector.index, h]
  · by_cases h : n < N
    · simp [Vector.indexRef, h]
    · simp [Vector.indexRef, h]
  · intro hle x
    have h : ¬ n < N := not_lt.mpr hle
    simp [Vector.index, h]

/-- C15, at the vector `(4,5,6)` and the index `3`: no value is returned. -/
theorem C15_index_checked_witness :
    ∀ x : Int, (Vector.variadic [4, 5, 6] (by decide) : Vector Int 3).index 3 ≠ .ok x :=
  (C15_index_checked Int 3 (Vector.variadic [4, 5, 6] (by decide)) 3).2.2 (by decide)

/-! ## Relations between the operations -/

/-- C17 as stated fails when `b` is the object `a` itself: both operators take `rhs`
by reference, so in `(a += a) -= a` on `a = (1,2,3)` the first call leaves `(2,4,6)`
in `a` and the second subtracts that from itself, which gives `(0,0,0)` and not
`(1,2,3)`. -/
theorem C17_add_then_sub_self_counterexample :
    ((Vector.variadic [1, 2, 3] (by decide) : Vector Int 3).addAssignSelf
        >>= fun r => r.subAssignSelf) = .ok (Vector.variadic [0, 0, 0] (by decide)) ∧
    ((Vector.variadic [1, 2, 3] (by decide) : Vector Int 3).addAssignSelf
        >>= fun r => r.subAssignSelf)
      ≠ .ok (Vector.variadic [1, 2, 3] (by decide)) := by
  decide

/-- C17, amended: for all sizes `N`, `S`, every `N`-vector `a` and every `S`-vector
`b` that is an object other than `a` (so that `b` holds the same value in both
calls), over an additive group, in particular over the integers and over the
rationals, `(a += b) -= b` returns `a`, also when `N ≠ S`. -/
theorem C17_add_then_sub_restores :
    (∀ (T : Type) [AddGroup T] (N S : Nat) (a : Vector T N) (b : Vector T S),
      (a.addAssign b >>= fun r => r.subAssign b) = .ok a) ∧
    (∀ (N S : Nat) (a : Vector Int N) (b : Vector Int S),
      (a.addAssign b >>= fun r => r.subAssign b) = .ok a) ∧
    (∀ (N S : Nat) (a : Vector Rat N) (b : Vector Rat S),
      (a.addAssign b >>= fun r => r.subAssign b) = .ok a) := by
  have key : ∀ (T : Type) [AddGroup T] (N S : Nat) (a : Vector T N) (b : Vector T S),
      (a.addAssign b >>= fun r => r.subAssign b) = .ok a := by
    intro T _ N S a b
    rw [Vector.addAssign_eq]
    simp only [bind, Except.bind]
    rw [Vector.subAssign_eq]
    congr 1
    cases a with
    | mk d =>
      congr 1
      funext i
      by_cases h : i.val < S
      · simp [h]
      · simp [h]
  exact ⟨key, fun N S a b => key Int N S a b, fun N S a b => key Rat N S a b⟩

/-- C18: for all sizes `N`, `S`, every `N`-vector `a` and `S`-vector `b` over a scalar
type in which `x + 0 = x`, the mixed-size sum `a + b` equals the same-size sum
`a + Vector<T,N>(b)` of `a` and `b` converted to size `N` by the size-changing
constructor. -/
theorem C18_add_eq_add_resized (T : Type) [AddZeroClass T] (N S : Nat) (a : Vector T N)
    (b : Vector T S) :
    add a b = (Vector.ofVector b >>= fun (b1 : Vector T N) => add a b1) := by
  rw [Vector.ofVector_eq]
  simp only [bind, Except.bind, add, Vector.addAssign_eq]
  congr 2
  funext i
  by_cases h : i.val < S
  · simp [h]
  · simp [h]

/-- C19: for every `N ≥ 2` and every `N`-vector `v`, truncating `v` to size `N-1` with
the size-changing constructor and extending the result with `v[N-1]` by the
vector-value constructor returns `v`, whatever the storage held before. -/
theorem C19_truncate_then_extend (T : Type) [Zero T] (N : Nat) (hN : 2 ≤ N)
    (uninit v : Vector T N) :
    (do
      let w ← (Vector.ofVector v : Except Fault (Vector T (N - 1)))
      let last ← v.index (N - 1)
      Vector.ofVectorValue uninit w last) = .ok v := by
  have h1 : 1 ≤ N := le_trans (by decide) hN
  have hlast : N - 1 < N := Nat.sub_lt h1 (by decide)
  rw [Vector.ofVector_eq, Vector.index_of_lt v hlast]
  simp only [bind, Except.bind]
  rw [Vector.ofVectorValue_eq h1]
  congr 1
  cases v with
  | mk d =>
    congr 1
    funext i
    by_cases h : i.val < N - 1
    · have hi : i.val < N := i.isLt
      simp [h, hi]
    · have hi : i = ⟨N - 1, hlast⟩ := Fin.ext (by have := i.isLt; simp only; omega)
      simp [h, hi]

/-- C19, at `N = 3` and `v = (4,5,6)` over storage holding `(7,7,7)`. -/
theorem C19_truncate_then_extend_witness :
    (do
      let w ← (Vector.ofVector (Vector.variadic [4, 5, 6] (by decide) : Vector Int 3) :
        Except Fault (Vector Int (3 - 1)))
      let last ← (Vector.variadic [4, 5, 6] (by decide) : Vector Int 3).index (3 - 1)
      Vector.ofVectorValue (Vector.variadic [7, 7, 7] (by decide)) w last)
      = .ok (Vector.variadic [4, 5, 6] (by decide) : Vector Int 3) :=
  C19_truncate_then_extend Int 3 (by decide) _ _

/-! ## Cross product and dot product -/

/-- C11 as stated fails at `N = 4`: for `a = (1,0,0,1)` and `b = (0,1,0,1)`,
`cross(a,b) = (0,0,1,1)`, whose dot product with `a` is `1` and with `b` is `1`. -/
theorem C11_cross_orthogonal_counterexample :
    ¬ (dot (cross (Vector.variadic [1, 0, 0, 1] (by decide) : Vector Int 4)
          (Vector.variadic [0, 1, 0, 1] (by decide)) (by decide))
        (Vector.variadic [1, 0, 0, 1] (by decide)) = .ok 0 ∧
      dot (cross (Vector.variadic [1, 0, 0, 1] (by decide) : Vector Int 4)
          (Vector.variadic [0, 1, 0, 1] (by decide)) (by decide))
        (Vector.variadic [0, 1, 0, 1] (by decide)) = .ok 0) := by
  decide

/-- C11, amended: for every `N ≥ 3` and all `N`-vectors `a`, `b` over a commutative
ring (the integers, the rationals), `cross(a,b) * a` is the sum of `a[i] * a[i]` over
`3 ≤ i < N` and `cross(a,b) * b` is the sum of `a[i] * b[i]` over `3 ≤ i < N`; for
`N = 3` both are `0`. -/
theorem C11_cross_dot_operands (T : Type) [CommRing T] (N : Nat) (h : 2 < N)
    (a b : Vector T N) :
    dot (cross a b h) a
        = .ok (∑ i : Fin N, if 3 ≤ i.val then a.data i * a.data i else 0) ∧
      dot (cross a b h) b
        = .ok (∑ i : Fin N, if 3 ≤ i.val then a.data i * b.data i else 0) ∧
      (N = 3 → dot (cross a b h) a = .ok 0 ∧ dot (cross a b h) b = .ok 0) := by
  have hc := Vector.cross_data h a b
  have ha := dot_cross_eq h a b a (by rw [hc.1, hc.2.1, hc.2.2.1]; ring)
  have hb := dot_cross_eq h a b b (by rw [hc.1, hc.2.1, hc.2.2.1]; ring)
  refine ⟨ha, hb, ?_⟩
  intro h3
  have hzero : ∀ x : Vector T N,
      (∑ i : Fin N, if 3 ≤ i.val then a.data i * x.data i else 0) = 0 := by
    intro x
    apply Finset.sum_eq_zero
    intro i _
    have hi : ¬ 3 ≤ i.val := by have := i.isLt; omega
    simp [hi]
  rw [ha, hb, hzero a, hzero b]
  exact ⟨rfl, rfl⟩

/-- C11 amended, at `N = 3`, `a = (1,2,3)` and `b = (4,5,6)`: both dot products
are `0`. -/
theorem C11_cross_dot_operands_witness :
    dot (cross (Vector.variadic [1, 2, 3] (by decide) : Vector Int 3)
          (Vector.variadic [4, 5, 6] (by decide)) (by decide))
        (Vector.variadic [1, 2, 3] (by decide)) = .ok 0 ∧
      dot (cross (Vector.variadic [1, 2, 3] (by decide) : Vector Int 3)
          (Vector.variadic [4, 5, 6] (by decide)) (by decide))
        (Vector.variadic [4, 5, 6] (by decide)) = .ok 0 :=
  (C11_cross_dot_operands Int 3 (by decide) _ _).2.2 rfl

/-! ## Scalar addition through the dispatch -/

/-- C12: for every scalar type `T`, size `N`, pair of dispatch tags, `N`-vector `v` and
scalar `s`, the scalar `operator+=` (forwarded to `VectorOperator<T,N,VT,ET>::Add`)
leaves the components of the per-component loop, `v[i] + s` for every `i < N`,
whichever specialization the tags select; so do the free `operator+(v, s)` and
`operator+(s, v)`. -/
theorem C12_scalar_add_refines_loop (T VT ET : Type) [Add T] (N : Nat)
    (specializations : VT → ET → Option (VectorOperator.Specialization T N))
    (vt : VT) (et : ET) (v : Vector T N) (s : T) :
    (∀ i : Fin N,
      (v.addAssignScalar specializations vt et s).data i = (v.naiveAdd s).data i) ∧
    (∀ i : Fin N, (v.addAssignScalar specializations vt et s).data i = v.data i + s) ∧
    (∀ i : Fin N, (addScalar specializations vt et v s).data i = v.data i + s) ∧
    (∀ i : Fin N, (scalarAdd specializations vt et s v).data i = v.data i + s) :=
  ⟨fun i => Vector.addAssignScalar_data specializations vt et v s i,
   fun i => Vector.addAssignScalar_data specializations vt et v s i,
   fun i => Vector.addAssignScalar_data specializations vt et v s i,
   fun i => Vector.addAssignScalar_data specializations vt et v s i⟩

/-- C12, at `(1,2,3,4) += 10` with the tags `(true, true)`, which select the unrolled
specialization, and with the tags `(false, true)`, which select the generic loop. -/
theorem C12_scalar_add_refines_loop_witness :
    (Vector.variadic [1, 2, 3, 4] (by decide) : Vector Int 4).addAssignScalar
        (exampleDispatch Int) true true 10 = Vector.variadic [11, 12, 13, 14] (by decide) ∧
    (∀ i : Fin 4,
      ((Vector.variadic [1, 2, 3, 4] (by decide) : Vector Int 4).addAssignScalar
        (exampleDispatch Int) false true 10).data i
      = (Vector.variadic [1, 2, 3, 4] (by decide) : Vector Int 4).data i + 10) :=
  ⟨by decide,
   (C12_scalar_add_refines_loop Int Bool Bool 4 (exampleDispatch Int) false true _ 10).2.1⟩

/-! ## Normalization -/

/-- C16 (the code at the failing input): `normalize` returns its operand as it was,
for every scalar type, `q_sqrt`, `s` and `res`, so the length of `normalize(v)` is the
length of `v`; for `v = (3,4)` over the rationals it is `q_sqrt(25)`, and with a
`q_sqrt` that has relative error at most `ε < 2/3` on the square root `5` of `25`
that length differs from `1` by more than `ε`. -/
theorem C16_normalize_keeps_length :
    (∀ (T : Type) [Zero T] [Add T] [Mul T] [Div T] [DecidableEq T] (q_sqrt : T → T)
        (N M : Nat) (v : Vector T N) (s : T) (res : Vector T M),
      ∃ out, normalize q_sqrt v s res = .ok out ∧ out.1 = v ∧
        out.1.distance q_sqrt = v.distance q_sqrt) ∧
    (∀ (q_sqrt : Rat → Rat) (M : Nat) (s : Rat) (res : Vector Rat M),
      ∃ out, normalize q_sqrt (Vector.variadic [3, 4] (by decide) : Vector Rat 2) s res
          = .ok out ∧
        out.1.distance q_sqrt = .ok (q_sqrt 25) ∧
        ∀ ε : Rat, |q_sqrt 25 - 5| ≤ ε * 5 → ε < 2 / 3 → ε < |q_sqrt 25 - 1|) := by
  constructor
  · intro T _ _ _ _ _ q_sqrt N M v s res
    obtain ⟨out, hout, h1⟩ := Vector.normalize_fst q_sqrt v s res
    exact ⟨out, hout, h1, by rw [h1]⟩
  · intro q_sqrt M s res
    obtain ⟨out, hout, h1⟩ := Vector.normalize_fst q_sqrt
      (Vector.variadic [3, 4] (by decide) : Vector Rat 2) s res
    refine ⟨out, hout, ?_, ?_⟩
    · rw [h1]
      unfold Vector.distance
      rw [dot_eq_sum]
      simp only [bind, Except.bind, pure, Except.pure]
      congr 2
      simp [Fin.sum_univ_two, Vector.variadic, Vector.braceInit]
      norm_num
    · intro ε hclose hε
      have h5 := abs_le.mp hclose
      have hlow : 4 - ε * 5 ≤ q_sqrt 25 - 1 := by linarith [h5.1]
      have hpos : ε < q_sqrt 25 - 1 := by linarith
      exact lt_of_lt_of_le hpos (le_abs_self _)

/-- C16, with the exact `q_sqrt(25) = 5` and `ε = 1/100`: the length of
`normalize((3,4))` differs from `1` by more than `ε`. -/
theorem C16_normalize_keeps_length_witness :
    (1 / 100 : Rat) < |(fun _ : Rat => (5 : Rat)) 25 - 1| := by
  obtain ⟨_, _, _, h⟩ := C16_normalize_keeps_length.2 (fun _ => 5) 0 0
    (Vector.value 0 : Vector Rat 0)
  exact h (1 / 100) (by norm_num) (by norm_num)

/-! ## Indices inside the loops -/

/-- C20: for all sizes `N` and `S` (the bounds `N ≥ 1`, `S ≥ 1` are not needed), every
index `i` of the loops of the mixed-size `operator+=` and `operator-=`, `i < min(N,S)`,
is below `S` and below `N`: `operator[]` on the `S`-vector passes its assertion and
the raw read and write of the `N`-array are in bounds, so both loops run to a value;
every index `i < N` of the dot-product loop passes the assertion of `operator[]` on
both operands, so the dot product runs to a value. -/
theorem C20_loop_indices_in_bounds (T : Type) [Zero T] [Add T] [Sub T] [Mul T]
    (N S : Nat) (a c : Vector T N) (b : Vector T S) :
    (∀ i : Nat, i < min N S →
      i < S ∧ i < N ∧ (∃ x, b.index i = .ok x) ∧
      ∀ (self : Vector T N) (x : T),
        (∃ y, self.rawGet i = .ok y) ∧ ∃ r, self.rawSet i x = .ok r) ∧
    (∃ r, a.addAssign b = .ok r) ∧
    (∃ r, a.subAssign b = .ok r) ∧
    (∀ i : Nat, i < N → (∃ x, a.index i = .ok x) ∧ ∃ y, c.index i = .ok y) ∧
    (∃ d, dot a c = .ok d) := by
  refine ⟨?_, ⟨_, Vector.addAssign_eq a b⟩, ⟨_, Vector.subAssign_eq a b⟩, ?_,
    ⟨_, dot_eq_foldl a c⟩⟩
  · intro i hi
    have hN : i < N := lt_of_lt_of_le hi (min_le_fst N S)
    have hS : i < S := lt_of_lt_of_le hi (min_le_snd N S)
    refine ⟨hS, hN, ⟨_, Vector.index_of_lt b hS⟩, fun self x => ?_⟩
    exact ⟨⟨_, Vector.rawGet_of_lt self hN⟩, ⟨_, Vector.rawSet_of_lt self hN x⟩⟩
  · intro i hi
    exact ⟨⟨_, Vector.index_of_lt a hi⟩, ⟨_, Vector.index_of_lt c hi⟩⟩

/-- C20, at `N = 3`, `S = 2` and the last index `1` of the mixed-size loops. -/
theorem C20_loop_indices_in_bounds_witness :
    1 < 2 ∧ 1 < 3 ∧
      (∃ x, (Vector.variadic [10, 20] (by decide) : Vector Int 2).index 1 = .ok x) ∧
      ∀ (self : Vector Int 3) (x : Int),
        (∃ y, self.rawGet 1 = .ok y) ∧ ∃ r, self.rawSet 1 x = .ok r :=
  (C20_loop_indices_in_bounds Int 3 2 (Vector.variadic [1, 2, 3] (by decide))
    (Vector.variadic [4, 5, 6] (by decide)) (Vector.variadic [10, 20] (by decide))).1 1
    (by decide)

end sml
